import Mathlib

/-- Calendar date as used by datetime.date / strptime "%Y-%m-%d". -/
structure PyDate where
  year : Nat
  month : Nat
  day : Nat
  deriving DecidableEq, Repr

namespace PyDate

/-- Lexicographic comparison of dates, matching Python datetime ordering. -/
def ltb (a b : PyDate) : Bool :=
  a.year < b.year || (a.year == b.year && (a.month < b.month || (a.month == b.month && a.day < b.day)))

instance instLT : LT PyDate := ⟨fun a b => ltb a b = true⟩

instance decLt (a b : PyDate) : Decidable (a < b) :=
  inferInstanceAs (Decidable (ltb a b = true))

/-- Gregorian leap-year rule used by the Python calendar. -/
def isLeap (y : Nat) : Bool :=
  y % 4 == 0 && (y % 100 != 0 || y % 400 == 0)

/-- Number of days in a month of a given year. -/
def daysInMonth (y m : Nat) : Nat :=
  if m = 2 then (if isLeap y then 29 else 28)
  else if m = 4 ∨ m = 6 ∨ m = 9 ∨ m = 11 then 30
  else 31

/-- Successor day, as timedelta(days=1) addition on a valid date. -/
def nextDay (d : PyDate) : PyDate :=
  if d.day < daysInMonth d.year d.month then ⟨d.year, d.month, d.day + 1⟩
  else if d.month < 12 then ⟨d.year, d.month + 1, 1⟩
  else ⟨d.year + 1, 1, 1⟩

/-- Predecessor day, as timedelta(days=1) subtraction on a valid date. -/
def prevDay (d : PyDate) : PyDate :=
  if d.day > 1 then ⟨d.year, d.month, d.day - 1⟩
  else if d.month > 1 then ⟨d.year, d.month - 1, daysInMonth d.year (d.month - 1)⟩
  else ⟨d.year - 1, 12, 31⟩

/-- Month addition with day clamping, as dateutil relativedelta(months=k). -/
def addMonths (d : PyDate) (k : Nat) : PyDate :=
  let t := d.year * 12 + (d.month - 1) + k
  let y := t / 12
  let m := t % 12 + 1
  ⟨y, m, min d.day (daysInMonth y m)⟩

end PyDate

/-- Loop body of download_contracts.create_date_ranges: while current_start < end_date,
emit (current_start, current_end) where current_end = current_start + interval months - 1 day,
clipped to end_date, then advance to current_end + 1 day.  The fuel argument bounds the
number of iterations; the Python loop runs for fewer than 1200 iterations on any span of
less than a century with interval_months at least 1, so with fuel 1200 this function agrees
with the source on all such inputs. -/
def create_date_rangesAux (fuel : Nat) (current_start end_date : PyDate) (interval_months : Nat) :
    List (PyDate × PyDate) :=
  match fuel with
  | 0 => []
  | fuel + 1 =>
    if current_start < end_date then
      let e0 := PyDate.prevDay (PyDate.addMonths current_start interval_months)
      let current_end := if end_date < e0 then end_date else e0
      (current_start, current_end) ::
        create_date_rangesAux fuel (PyDate.nextDay current_end) end_date interval_months
    else []

/-- Embedding of download_contracts.create_date_ranges (the string-to-date parsing by
strptime and back-formatting by strftime is dropped; dates are passed as values). -/
def create_date_ranges (start_date end_date : PyDate) (interval_months : Nat) :
    List (PyDate × PyDate) :=
  create_date_rangesAux 1200 start_date end_date interval_months

/-- Row of a raw CSV as seen by transform_data.process_csv_file after the end-date column
has been run through pd.to_datetime(..., errors="coerce"): a missing or unparseable value
has become null (NaT), represented here as none. -/
structure TransRow where
  award_id : List Char
  description : List Char
  period_of_performance_current_end_date : Option PyDate
  deriving DecidableEq

/-- Embedding of the live filter of transform_data.process_csv_file (lines 131-139):
active_df = df[df[date_column] > today_date].  A null (NaT) end date compares false
against the cutoff, so such rows are dropped. -/
def activeSubset (rows : List TransRow) (today_date : PyDate) : List TransRow :=
  rows.filter fun r =>
    match r.period_of_performance_current_end_date with
    | some d => PyDate.ltb today_date d
    | none => false

/-- Python word character class \w restricted to the ASCII strings exercised here:
letters, digits and underscore. -/
def wordChar (c : Char) : Bool := c.isAlphanum || c == '_'

/-- Whether position i of s holds a word character (positions past the end do not). -/
def wordAt (s : List Char) (i : Nat) : Bool := wordChar (s.getD i ' ')

/-- Semantics of the regex word-boundary assertion at position i of s: exactly one of
the characters on either side of the position is a word character; beyond either end of
the string counts as a non-word character. -/
def boundaryAt (s : List Char) (i : Nat) : Bool :=
  (if i = 0 then false else wordAt s (i - 1)) != wordAt s i

/-- Case-insensitive literal match of a keyword against the head of a string, the
semantics of an IGNORECASE escaped-literal regex alternative. -/
def litAt : List Char → List Char → Bool
  | _, [] => true
  | [], _ :: _ => false
  | c :: s, k :: ks => (c.toLower == k.toLower) && litAt s ks

/-- Matching semantics of the pattern built by transform_data.setup_keywords and
filter_contracts.setup_advanced_keywords:
re.compile(α·\b + join of the escaped keywords by the bar + β·\b, re.IGNORECASE),
with the bar as the alternation operator.  Alternation binds loosest, so the leading
word boundary belongs to the first alternative only, and the trailing one to the last
alternative only.  re.search succeeds iff some alternative matches at some position. -/
def patternSearch (kws : List (List Char)) (s : List Char) : Bool :=
  let n := kws.length
  (List.range (s.length + 1)).any fun i =>
    kws.enum.any fun jk =>
      (jk.1 != 0 || boundaryAt s i) &&
      litAt (s.drop i) jk.2 &&
      (jk.1 != n - 1 || boundaryAt s (i + jk.2.length))

/-- Keyword list of filter_contracts.setup_advanced_keywords (the commented-out entries
of the source list are omitted there as well). -/
def advanced_keywords : List (List Char) :=
  ["DEI".toList, "diversity".toList, "equity".toList, "inclusion".toList,
    "gender".toList, "non-binary".toList]

/-- Embedding of the compiled pattern of filter_contracts.setup_advanced_keywords applied
by pandas str.contains, which uses re.search semantics. -/
def setup_advanced_keywordsMatch (s : List Char) : Bool := patternSearch advanced_keywords s

/-- Modelled from the spec: whole-word keyword matching, in which every keyword
alternative carries a word boundary on both sides, as the grouped pattern
(a boundary, then the parenthesised alternation, then a boundary) would give. -/
def wholeWordSearch (kws : List (List Char)) (s : List Char) : Bool :=
  (List.range (s.length + 1)).any fun i =>
    kws.any fun kw =>
      boundaryAt s i && litAt (s.drop i) kw && boundaryAt s (i + kw.length)

/-- Boolean lexicographic order on character lists, the order pandas uses on the string
group keys when groupby sorts them. -/
def lexLe : List Char → List Char → Bool
  | [], _ => true
  | _ :: _, [] => false
  | a :: as, b :: bs => if a = b then lexLe as bs else decide (a < b)

/-- Maximum of an Int list relative to a starting value, the fold pandas computes for a
max aggregation over a group. -/
def maxFrom (a : Int) (l : List Int) : Int := l.foldl max a

/-- Later of two dates, for the max aggregation of the end-date column. -/
def pyDateMax (a b : PyDate) : PyDate := if a < b then b else a

/-- Row of a flagged procurement CSV as read back by transform_data.combine_csv_files,
with the columns its groupby aggregation touches. -/
structure ProcRow where
  award_id_piid : List Char
  current_total_value_of_award : Int
  prime_award_base_transaction_description : List Char
  action_type_code : List Char
  recipient_name : List Char
  awarding_agency_name : List Char
  period_of_performance_current_end_date : PyDate
  deriving DecidableEq

/-- Aggregated output row of the procurement groupby of combine_csv_files: for the rows
of one group, taken in input order, the amount and end-date columns aggregate by max,
description, recipient and agency by first, and action_type_code by last, exactly as in
the agg dictionary of the source.  An empty group never occurs. -/
def aggProcRow (k : List Char) (g : List ProcRow) : ProcRow where
  award_id_piid := k
  current_total_value_of_award :=
    match g with
    | [] => 0
    | r :: t => maxFrom r.current_total_value_of_award (t.map (·.current_total_value_of_award))
  prime_award_base_transaction_description :=
    (g.head?.map (·.prime_award_base_transaction_description)).getD []
  action_type_code := (g.getLast?.map (·.action_type_code)).getD []
  recipient_name := (g.head?.map (·.recipient_name)).getD []
  awarding_agency_name := (g.head?.map (·.awarding_agency_name)).getD []
  period_of_performance_current_end_date :=
    match g with
    | [] => ⟨0, 0, 0⟩
    | r :: t => t.foldl (fun m y => pyDateMax m y.period_of_performance_current_end_date)
        r.period_of_performance_current_end_date

/-- Group keys of a pandas groupby over the award id column: the distinct values, sorted
ascending (groupby sorts keys by default; with string ids none is null, so none is
dropped). -/
def sortedUniqueIds (rows : List ProcRow) : List (List Char) :=
  List.insertionSort (fun a b => lexLe a b = true) ((rows.map (·.award_id_piid)).dedup)

/-- Embedding of the procurement branch of transform_data.combine_csv_files (lines
209-224): concatenation of the input files is the input row list; groupby award_id_piid,
aggregate each column per the agg dictionary, reset_index.  The grant branch is the same
construction minus the action_type_code column. -/
def combine_csv_filesProc (rows : List ProcRow) : List ProcRow :=
  (sortedUniqueIds rows).map fun k =>
    aggProcRow k (rows.filter fun r => decide (r.award_id_piid = k))

/-- Row of a flagged master file as read by filter_contracts.filter_by_amount_and_keywords,
after the amount column has been run through pd.to_numeric(..., errors="coerce"): a
non-numeric amount has become null (NaN), represented as none. -/
structure FilterRow where
  award_id : List Char
  amount : Option Int
  description : List Char
  deriving DecidableEq

/-- Descending comparison on coerced amounts as pandas sort_values(ascending=False) with
the default na_position="last" orders them: real values descending, nulls at the end. -/
def descGe (x y : Option Int) : Bool :=
  match x, y with
  | some a, some b => decide (b ≤ a)
  | some _, none => true
  | none, none => true
  | none, some _ => false

/-- The amount column is non-increasing along the list. -/
def IsSortedAmountDesc (l : List FilterRow) : Prop :=
  List.Pairwise (fun a b => descGe a.amount b.amount = true) l

/-- Contract of pandas sort_values(by=amount_col, ascending=False) with the default
kind="quicksort": the output is a permutation of the input whose amount column is
descending.  Which permutation — in particular the relative order of rows with equal
amounts — is not specified: the pandas documentation guarantees stability only for
kind="mergesort" or kind="stable", and the source passes neither. -/
def SortValuesDesc (inp out : List FilterRow) : Prop :=
  out.Perm inp ∧ IsSortedAmountDesc out

/-- Embedding of DataFrame.drop_duplicates(subset=[id_col], keep="first"): walk the rows
in order, keeping a row iff its id has not been seen before. -/
def dropDupByIdAux (seen : List (List Char)) : List FilterRow → List FilterRow
  | [] => []
  | r :: rs =>
    if r.award_id ∈ seen then dropDupByIdAux seen rs
    else r :: dropDupByIdAux (r.award_id :: seen) rs

/-- drop_duplicates over the whole list, no id seen yet. -/
def dropDupById (l : List FilterRow) : List FilterRow := dropDupByIdAux [] l

/-- Whether duplicate ids exist: the source computes len(df) - df[id_col].nunique() and
tests it against 0, which is equivalent to the id column not being duplicate-free. -/
def hasDupIds (l : List FilterRow) : Bool := !decide ((l.map (·.award_id)).Nodup)

/-- Embedding of filter_contracts.filter_by_amount_and_keywords as a relation between the
input rows and one possible saved output table: filter by amount ≥ min_amount (null
amounts compare false), filter by the keyword pattern over the description (nulls already
filled with the empty string), then, when duplicate ids exist, sort descending by amount
and drop duplicate ids keeping the first, and finally sort descending by amount again.
The two sorts are constrained only by the SortValuesDesc contract. -/
def FilterRun (rows : List FilterRow) (min_amount : Int) (pat : List Char → Bool)
    (out : List FilterRow) : Prop :=
  let amount_filtered := rows.filter fun r =>
    match r.amount with
    | some v => decide (min_amount ≤ v)
    | none => false
  let keyword_filtered := amount_filtered.filter fun r => pat r.description
  if hasDupIds keyword_filtered then
    ∃ s1, SortValuesDesc keyword_filtered s1 ∧ SortValuesDesc (dropDupById s1) out
  else
    SortValuesDesc keyword_filtered out

/-- Embedding of filter_contracts.combine_filtered_files as a relation between the input
tables and one possible combined output: concatenate, dedup by id with the max-amount
policy when duplicate ids exist, and sort descending by amount. -/
def CombineFilteredRun (tables : List (List FilterRow)) (out : List FilterRow) : Prop :=
  let combined := tables.flatten
  if hasDupIds combined then
    ∃ s1, SortValuesDesc combined s1 ∧ SortValuesDesc (dropDupById s1) out
  else
    SortValuesDesc combined out

/-- x appears strictly before y in l. -/
def Precedes (l : List FilterRow) (x y : FilterRow) : Prop :=
  ∃ i j : Fin l.length, i.1 < j.1 ∧ l.get i = x ∧ l.get j = y

instance instDecSortedAmountDesc (l : List FilterRow) : Decidable (IsSortedAmountDesc l) :=
  inferInstanceAs (Decidable (List.Pairwise (fun a b : FilterRow => descGe a.amount b.amount = true) l))

instance instDecPrecedes (l : List FilterRow) (x y : FilterRow) : Decidable (Precedes l x y) :=
  inferInstanceAs (Decidable (∃ i j : Fin l.length, i.1 < j.1 ∧ l.get i = x ∧ l.get j = y))

/-- Deterministic local filename computed by download_contracts.fetch_download:
department with spaces replaced by underscores and lowercased, then award type and the
date range, ending in .zip. -/
def fetchFilename (department sub_award_type start_date end_date : List Char) : List Char :=
  ((department.map fun c => if c = ' ' then '_' else c).map Char.toLower) ++
    '_' :: sub_award_type ++ '_' :: start_date ++ "_to_".toList ++ end_date ++ ".zip".toList

/-- Path of the file inside the download directory, as os.path.join("contract_data", filename). -/
def fetchFilePath (department sub_award_type start_date end_date : List Char) : List Char :=
  "contract_data/".toList ++ fetchFilename department sub_award_type start_date end_date

/-- Behaviour of the remote side during one fetch_download call: whether the HEAD poll at
a given attempt reports the file ready, and whether the streaming GET download runs to
completion once started. -/
structure FetchEnv where
  ready : Nat → Bool
  dlOk : Bool

/-- Embedding of download_contracts.check_file_status: a HEAD request on the url,
true iff it answers 200; any transport exception - in particular the one raised when the
url is None - yields False. -/
def check_file_status (file_url : Option (List Char)) (env : FetchEnv) (attempt : Nat) : Bool :=
  match file_url with
  | none => false
  | some _ => env.ready attempt

/-- Result of one fetch_download call: the returned value, the filesystem afterwards,
the number of HEAD polls performed, and whether a streaming download was started. -/
structure FetchResult where
  result : Option (List Char)
  fs : List (List Char)
  headCalls : Nat
  downloadStarted : Bool
  deriving DecidableEq

/-- Embedding of download_contracts.fetch_download.  The filesystem is the list of
existing paths.  If the target path exists the function returns it at once with no
network traffic.  Otherwise it polls readiness up to 40 times; on timeout it returns
None.  Once ready it streams the download: on success the file exists afterwards; on a
mid-stream transport failure the partial file is written and then removed
(os.remove), leaving the filesystem as before, and None is returned. -/
def fetch_download (file_url : Option (List Char))
    (department start_date end_date sub_award_type : List Char)
    (fs : List (List Char)) (env : FetchEnv) : FetchResult :=
  let file_path := fetchFilePath department sub_award_type start_date end_date
  if file_path ∈ fs then ⟨some file_path, fs, 0, false⟩
  else
    match (List.range 40).find? (fun i => check_file_status file_url env i) with
    | none => ⟨none, fs, 40, false⟩
    | some i =>
      if env.dlOk then ⟨some file_path, file_path :: fs, i + 1, true⟩
      else ⟨none, (file_path :: fs).erase file_path, i + 1, true⟩

/-- One (department, date-range, award-type) unit of work of download_contracts.main,
with the file_url produced by its request_download call (None when the request failed)
and the remote behaviour seen by the initial fetch pass and by the recovery pass. -/
structure Job where
  department : List Char
  start_date : List Char
  end_date : List Char
  sub_award_type : List Char
  file_url : Option (List Char)
  envFetch : FetchEnv
  envRecover : FetchEnv

/-- Expected local filename of a job, as recomputed by check_and_download_missing. -/
def expectedFilename (j : Job) : List Char :=
  fetchFilename j.department j.sub_award_type j.start_date j.end_date

/-- Outcome of the recovery pass: the files still missing, the filesystem afterwards,
and a record of every fetch_download invocation it made (expected filename, HEAD polls). -/
structure RecoveryOutcome where
  missing : List (List Char)
  fs : List (List Char)
  fetchCalls : List (List Char × Nat)
  deriving DecidableEq

/-- Embedding of download_contracts.check_and_download_missing: walk all jobs; whenever
the expected filename is not among the successfully downloaded basenames, call
fetch_download on the job's stored file_url - whatever that url is - and report the file
missing if the fetch returned None. -/
def check_and_download_missing (jobs : List Job) (successful_filenames : List (List Char))
    (fs : List (List Char)) : RecoveryOutcome :=
  match jobs with
  | [] => ⟨[], fs, []⟩
  | j :: js =>
    if expectedFilename j ∈ successful_filenames then
      check_and_download_missing js successful_filenames fs
    else
      let r := fetch_download j.file_url j.department j.start_date j.end_date
        j.sub_award_type fs j.envRecover
      let rest := check_and_download_missing js successful_filenames r.fs
      ⟨(if r.result = none then expectedFilename j :: rest.missing else rest.missing),
        rest.fs, (expectedFilename j, r.headCalls) :: rest.fetchCalls⟩

/-- os.path.basename for the paths this pipeline produces: everything after the last
slash. -/
def pyBasename (p : List Char) : List Char := (p.reverse.takeWhile (fun c => c ≠ '/')).reverse

/-- Initial fetch pass of download_contracts.main (step 2): for every job with a file
url, run fetch_download, collecting the returned paths; jobs without a url are only
logged.  Returns the successful download paths in order and the final filesystem. -/
def mainFetchPass (jobs : List Job) (fs : List (List Char)) :
    List (List Char) × List (List Char) :=
  match jobs with
  | [] => ([], fs)
  | j :: js =>
    match j.file_url with
    | some _ =>
      let r := fetch_download j.file_url j.department j.start_date j.end_date
        j.sub_award_type fs j.envFetch
      let rest := mainFetchPass js r.fs
      (match r.result with
        | some p => p :: rest.1
        | none => rest.1, rest.2)
    | none => mainFetchPass js fs

/-- Embedding of download_contracts.main from the point where the per-range download
requests have been issued (each job carries the file_url its request returned): fetch
all files, run the recovery pass when fewer files than date ranges arrived, and return
the process exit code - 1 when the recovery pass leaves files missing, otherwise 0
exactly when the initial pass downloaded at least one file. -/
def download_main (jobs : List Job) (fs : List (List Char)) : Nat :=
  let passResult := mainFetchPass jobs fs
  if passResult.1.length < jobs.length then
    if (check_and_download_missing jobs (passResult.1.map pyBasename) passResult.2).missing ≠ []
    then 1
    else if passResult.1 ≠ [] then 0 else 1
  else if passResult.1 ≠ [] then 0 else 1

/-- Truthiness test of orchestrator.process_department, skip_download false: zip_files
holds the integer exit code of download_contracts.main, and the guard not zip_files
skips the transform stage; Python bool of an int is false exactly at 0, so the transform
stage runs iff the download stage returned a nonzero code. -/
def process_department_transform_invoked (download_result : Nat) : Bool :=
  if download_result = 0 then false else true

/-- C3: the spec's concrete scenario (2024-01-01, 2024-08-15, 3) is reproduced exactly,
but partitioning completeness fails: on (2024-01-01, 2024-04-01, 3) the produced ranges
end at 2024-03-31, so the final day 2024-04-01 of the requested span is covered by no
sub-range, contradicting the claim that the last sub_end equals end_date.  The claimed
empty result for start_date >= end_date does hold, as the third conjunct shows. -/
theorem create_date_ranges_drops_final_day :
    create_date_ranges ⟨2024, 1, 1⟩ ⟨2024, 8, 15⟩ 3 =
      [(⟨2024, 1, 1⟩, ⟨2024, 3, 31⟩), (⟨2024, 4, 1⟩, ⟨2024, 6, 30⟩),
        (⟨2024, 7, 1⟩, ⟨2024, 8, 15⟩)] ∧
    create_date_ranges ⟨2024, 1, 1⟩ ⟨2024, 4, 1⟩ 3 =
      [(⟨2024, 1, 1⟩, ⟨2024, 3, 31⟩)] ∧
    create_date_ranges ⟨2024, 4, 1⟩ ⟨2024, 4, 1⟩ 3 = [] := by
  refine ⟨by decide, by decide, by decide⟩

/-- C4: a row is in the active subset iff it is an input row whose coerced end date is a
real date strictly greater than the cutoff; a row whose end date coerced to null is never
in the active subset. -/
theorem activeSubset_mem_iff (rows : List TransRow) (today_date : PyDate) (r : TransRow) :
    (r ∈ activeSubset rows today_date ↔
      r ∈ rows ∧ ∃ d, r.period_of_performance_current_end_date = some d ∧ today_date < d) ∧
    (r.period_of_performance_current_end_date = none → r ∉ activeSubset rows today_date) := by
  have hmain : r ∈ activeSubset rows today_date ↔
      r ∈ rows ∧ ∃ d, r.period_of_performance_current_end_date = some d ∧ today_date < d := by
    rw [activeSubset, List.mem_filter]
    cases hd : r.period_of_performance_current_end_date with
    | none => simp [hd]
    | some d => simp [hd]; intro _; exact Iff.rfl
  refine ⟨hmain, fun hn hmem => ?_⟩
  rcases (hmain.mp hmem).2 with ⟨d, hd, _⟩
  rw [hn] at hd
  exact Option.noConfusion hd

/-- C2: keyword matching is case-insensitive ("Diversity" matches), but it is not
whole-word for every keyword: "nondiversity" as a single token is matched by the
compiled pattern, because the word boundaries attach only to the first and last
alternatives, while the whole-word semantics stated by the claim (and by the source's
own comment) would reject it, as the third conjunct shows on the same keyword list. -/
theorem advanced_keyword_match_not_whole_word :
    setup_advanced_keywordsMatch ("Diversity".toList) = true ∧
    setup_advanced_keywordsMatch ("nondiversity".toList) = true ∧
    wholeWordSearch advanced_keywords ("nondiversity".toList) = false := by
  refine ⟨by decide, by decide, by decide⟩

theorem maxFrom_eq_or_mem (a : Int) (l : List Int) : maxFrom a l = a ∨ maxFrom a l ∈ l := by
  induction l generalizing a with
  | nil => exact Or.inl rfl
  | cons b t ih =>
    have hstep : maxFrom a (b :: t) = maxFrom (max a b) t := rfl
    rcases ih (max a b) with h | h
    · rcases max_choice a b with hm | hm
      · exact Or.inl (by rw [hstep, h, hm])
      · refine Or.inr ?_
        rw [hstep, h, hm]; exact List.mem_cons_self b t
    · refine Or.inr ?_
      rw [hstep]; exact List.mem_cons_of_mem b h

theorem le_maxFrom (a : Int) (l : List Int) : a ≤ maxFrom a l := by
  induction l generalizing a with
  | nil => exact le_refl a
  | cons b t ih => exact le_trans (le_max_left a b) (ih (max a b))

theorem le_maxFrom_of_mem {x : Int} {l : List Int} (a : Int) (hx : x ∈ l) : x ≤ maxFrom a l := by
  induction l generalizing a with
  | nil => cases hx
  | cons b t ih =>
    rcases List.mem_cons.mp hx with rfl | hx'
    · exact le_trans (le_max_right a x) (le_maxFrom (max a x) t)
    · exact ih (max a b) hx'

theorem descGe_refl (a : Option Int) : descGe a a = true := by
  cases a <;> simp [descGe]

theorem dropDupByIdAux_key_not_seen {seen : List (List Char)} {l : List FilterRow}
    {x : FilterRow} (hx : x ∈ dropDupByIdAux seen l) : x.award_id ∉ seen := by
  induction l generalizing seen with
  | nil => simp [dropDupByIdAux] at hx
  | cons r rs ih =>
    rw [dropDupByIdAux] at hx
    by_cases h : r.award_id ∈ seen
    · rw [if_pos h] at hx; exact ih hx
    · rw [if_neg h] at hx
      rcases List.mem_cons.mp hx with rfl | hx'
      · exact h
      · intro hmem
        exact ih hx' (List.mem_cons_of_mem _ hmem)

theorem dropDupByIdAux_subset {seen : List (List Char)} {l : List FilterRow}
    {x : FilterRow} (hx : x ∈ dropDupByIdAux seen l) : x ∈ l := by
  induction l generalizing seen with
  | nil => simp [dropDupByIdAux] at hx
  | cons r rs ih =>
    rw [dropDupByIdAux] at hx
    by_cases h : r.award_id ∈ seen
    · rw [if_pos h] at hx; exact List.mem_cons_of_mem r (ih hx)
    · rw [if_neg h] at hx
      rcases List.mem_cons.mp hx with rfl | hx'
      · exact List.mem_cons_self x rs
      · exact List.mem_cons_of_mem r (ih hx')

theorem dropDupByIdAux_ids_nodup (seen : List (List Char)) (l : List FilterRow) :
    ((dropDupByIdAux seen l).map (·.award_id)).Nodup := by
  rw [List.Nodup, List.pairwise_map]
  induction l generalizing seen with
  | nil => simp [dropDupByIdAux]
  | cons r rs ih =>
    rw [dropDupByIdAux]
    by_cases h : r.award_id ∈ seen
    · rw [if_pos h]; exact ih seen
    · rw [if_neg h]
      refine List.Pairwise.cons (fun b hb => ?_) (ih _)
      have := dropDupByIdAux_key_not_seen hb
      intro hEq
      exact this (hEq ▸ List.mem_cons_self _ _)

theorem dropDupByIdAux_exists {seen : List (List Char)} {l : List FilterRow}
    {k : List Char} (hks : k ∉ seen) (hk : k ∈ l.map (·.award_id)) :
    ∃ r, r ∈ dropDupByIdAux seen l ∧ r.award_id = k := by
  induction l generalizing seen with
  | nil => simp at hk
  | cons r rs ih =>
    rw [dropDupByIdAux]
    by_cases h : r.award_id ∈ seen
    · rw [if_pos h]
      have hne : r.award_id ≠ k := fun hEq => hks (hEq ▸ h)
      rcases List.mem_map.mp hk with ⟨y, hy, hyk⟩
      rcases List.mem_cons.mp hy with rfl | hy'
      · exact absurd hyk hne
      · exact ih hks (List.mem_map.mpr ⟨y, hy', hyk⟩)
    · rw [if_neg h]
      by_cases hrk : r.award_id = k
      · exact ⟨r, List.mem_cons_self r _, hrk⟩
      · rcases List.mem_map.mp hk with ⟨y, hy, hyk⟩
        rcases List.mem_cons.mp hy with rfl | hy'
        · exact absurd hyk hrk
        · have hks' : k ∉ r.award_id :: seen := by
            intro hmem
            rcases List.mem_cons.mp hmem with hEq | hmem'
            · exact hrk hEq.symm
            · exact hks hmem'
          rcases ih hks' (List.mem_map.mpr ⟨y, hy', hyk⟩) with ⟨z, hz, hzk⟩
          exact ⟨z, List.mem_cons_of_mem r hz, hzk⟩

theorem dropDupByIdAux_dominates {seen : List (List Char)} {l : List FilterRow}
    {x : FilterRow} (hsort : List.Pairwise (fun a b => descGe a.amount b.amount = true) l)
    (hx : x ∈ dropDupByIdAux seen l) :
    ∀ y ∈ l, y.award_id = x.award_id → descGe x.amount y.amount = true := by
  induction l generalizing seen with
  | nil => simp [dropDupByIdAux] at hx
  | cons r rs ih =>
    rw [dropDupByIdAux] at hx
    by_cases h : r.award_id ∈ seen
    · rw [if_pos h] at hx
      intro y hy hyx
      rcases List.mem_cons.mp hy with rfl | hy'
      · exact absurd (hyx ▸ dropDupByIdAux_key_not_seen hx) (fun hns => hns h)
      · exact ih hsort.of_cons hx y hy' hyx
    · rw [if_neg h] at hx
      rcases List.mem_cons.mp hx with rfl | hx'
      · intro y hy hyx
        rcases List.mem_cons.mp hy with rfl | hy'
        · exact descGe_refl _
        · exact List.rel_of_pairwise_cons hsort hy'
      · intro y hy hyx
        have hxid := dropDupByIdAux_key_not_seen hx'
        have hxr : x.award_id ≠ r.award_id := fun hEq =>
          hxid (hEq ▸ List.mem_cons_self _ _)
        rcases List.mem_cons.mp hy with rfl | hy'
        · exact absurd hyx.symm hxr
        · exact ih hsort.of_cons hx' y hy' hyx

theorem mem_sortedUniqueIds {rows : List ProcRow} {k : List Char} :
    k ∈ sortedUniqueIds rows ↔ k ∈ rows.map (·.award_id_piid) := by
  rw [sortedUniqueIds, List.mem_insertionSort, List.mem_dedup]

theorem sortedUniqueIds_nodup (rows : List ProcRow) : (sortedUniqueIds rows).Nodup :=
  ((List.perm_insertionSort _ _).nodup_iff).mpr (List.nodup_dedup _)

theorem combine_csv_filesProc_ids (rows : List ProcRow) :
    (combine_csv_filesProc rows).map (·.award_id_piid) = sortedUniqueIds rows := by
  rw [combine_csv_filesProc, List.map_map]
  exact List.map_id (sortedUniqueIds rows)

/-- C1 amended: for every award id occurring in the input, the groupby output of
combine_csv_files contains exactly one row for that id (the output id column is
duplicate-free and every input id is hit) and its amount equals the maximum amount over
the group, attained by some group member; the other columns aggregate per column (first
or last), so the output row need not coincide with the first-seen maximal input row.  In
the secondary filter's dedup step, any output permitted by the descending sort contract
keeps, per id, exactly one row, and it is an input row whose amount dominates every row
of its group. -/
theorem dedup_by_max_amended :
    (∀ rows : List ProcRow,
      ((combine_csv_filesProc rows).map (·.award_id_piid)).Nodup ∧
      ∀ k, k ∈ rows.map (·.award_id_piid) →
        ∃ r, r ∈ combine_csv_filesProc rows ∧ r.award_id_piid = k ∧
          (∃ y, y ∈ rows ∧ y.award_id_piid = k ∧
            y.current_total_value_of_award = r.current_total_value_of_award) ∧
          (∀ y, y ∈ rows → y.award_id_piid = k →
            y.current_total_value_of_award ≤ r.current_total_value_of_award)) ∧
    (∀ l out : List FilterRow, SortValuesDesc l out →
      ((dropDupById out).map (·.award_id)).Nodup ∧
      ∀ k, k ∈ l.map (·.award_id) →
        ∃ r, r ∈ dropDupById out ∧ r.award_id = k ∧ r ∈ l ∧
          ∀ y, y ∈ l → y.award_id = k → descGe r.amount y.amount = true) := by
  constructor
  · intro rows
    refine ⟨by rw [combine_csv_filesProc_ids]; exact sortedUniqueIds_nodup rows, ?_⟩
    intro k hk
    have hk' : k ∈ sortedUniqueIds rows := mem_sortedUniqueIds.mpr hk
    set g := rows.filter (fun r => decide (r.award_id_piid = k)) with hg
    have hmemg : ∀ y, y ∈ g ↔ y ∈ rows ∧ y.award_id_piid = k := by
      intro y
      rw [hg, List.mem_filter, decide_eq_true_eq]
    refine ⟨aggProcRow k g, List.mem_map.mpr ⟨k, hk', rfl⟩, rfl, ?_⟩
    rcases List.mem_map.mp hk with ⟨y0, hy0, hy0k⟩
    have hy0g : y0 ∈ g := (hmemg y0).mpr ⟨hy0, hy0k⟩
    cases hgl : g with
    | nil => rw [hgl] at hy0g; cases hy0g
    | cons r0 t =>
      have hamt : (aggProcRow k (r0 :: t)).current_total_value_of_award =
          maxFrom r0.current_total_value_of_award (t.map (·.current_total_value_of_award)) := rfl
      constructor
      · rcases maxFrom_eq_or_mem r0.current_total_value_of_award
          (t.map (·.current_total_value_of_award)) with h | h
        · have hr0 := (hmemg r0).mp (by rw [hgl]; exact List.mem_cons_self r0 t)
          exact ⟨r0, hr0.1, hr0.2, by rw [hamt, h]⟩
        · rcases List.mem_map.mp h with ⟨y, hyt, hyv⟩
          have hyg := (hmemg y).mp (by rw [hgl]; exact List.mem_cons_of_mem r0 hyt)
          exact ⟨y, hyg.1, hyg.2, by rw [hamt, hyv]⟩
      · intro y hy hyk
        have hyg : y ∈ g := (hmemg y).mpr ⟨hy, hyk⟩
        rw [hgl] at hyg
        rw [hamt]
        rcases List.mem_cons.mp hyg with rfl | hyt
        · exact le_maxFrom _ _
        · exact le_maxFrom_of_mem _ (List.mem_map.mpr ⟨y, hyt, rfl⟩)
  · rintro l out ⟨hperm, hsort⟩
    refine ⟨dropDupByIdAux_ids_nodup [] out, ?_⟩
    intro k hk
    have hkout : k ∈ out.map (·.award_id) := by
      rcases List.mem_map.mp hk with ⟨y, hy, hyk⟩
      exact List.mem_map.mpr ⟨y, hperm.mem_iff.mpr hy, hyk⟩
    rcases dropDupByIdAux_exists (List.not_mem_nil k) hkout with ⟨r, hr, hrk⟩
    refine ⟨r, hr, hrk, hperm.mem_iff.mp (dropDupByIdAux_subset hr), ?_⟩
    intro y hy hyk
    exact dropDupByIdAux_dominates hsort hr y (hperm.mem_iff.mpr hy) (by rw [hyk, hrk])

theorem find?_const_false_none (env : FetchEnv) :
    (List.range 40).find? (fun i => check_file_status none env i) = none :=
  List.find?_eq_none.mpr fun _ _ => by simp [check_file_status]

/-- C6: the target path is a deterministic function of the four identifying fields (it
is computed by fetchFilePath); when the file already exists on disk, fetch_download
returns it at once with zero HEAD polls and no download started; and after any call
that returned a path, a second call with the same identifying fields returns the same
path with zero HEAD polls and no download, leaving the filesystem untouched. -/
theorem fetch_download_idempotent
    (file_url file_url2 : Option (List Char))
    (department start_date end_date sub_award_type : List Char)
    (fs : List (List Char)) (env env2 : FetchEnv) :
    (fetchFilePath department sub_award_type start_date end_date ∈ fs →
      fetch_download file_url department start_date end_date sub_award_type fs env =
        ⟨some (fetchFilePath department sub_award_type start_date end_date), fs, 0, false⟩) ∧
    (∀ p,
      (fetch_download file_url department start_date end_date sub_award_type fs env).result =
        some p →
      p = fetchFilePath department sub_award_type start_date end_date ∧
      fetch_download file_url2 department start_date end_date sub_award_type
          (fetch_download file_url department start_date end_date sub_award_type fs env).fs
          env2 =
        ⟨some p,
          (fetch_download file_url department start_date end_date sub_award_type fs env).fs,
          0, false⟩) := by
  have hexists : ∀ fs2 : List (List Char),
      fetchFilePath department sub_award_type start_date end_date ∈ fs2 →
      ∀ u e, fetch_download u department start_date end_date sub_award_type fs2 e =
        ⟨some (fetchFilePath department sub_award_type start_date end_date), fs2, 0, false⟩ := by
    intro fs2 hmem u e
    simp only [fetch_download]
    rw [if_pos hmem]
  refine ⟨fun hmem => hexists fs hmem file_url env, ?_⟩
  intro p hp
  by_cases hmem : fetchFilePath department sub_award_type start_date end_date ∈ fs
  · rw [hexists fs hmem file_url env] at hp ⊢
    have hpeq : p = fetchFilePath department sub_award_type start_date end_date :=
      (Option.some.injEq _ _ ▸ hp).symm
    subst hpeq
    exact ⟨rfl, hexists fs hmem file_url2 env2⟩
  · cases hfind : (List.range 40).find? (fun i => check_file_status file_url env i) with
    | none =>
      have hR : fetch_download file_url department start_date end_date sub_award_type fs env =
          ⟨none, fs, 40, false⟩ := by
        simp only [fetch_download]
        rw [if_neg hmem, hfind]
      rw [hR] at hp
      cases hp
    | some i =>
      by_cases hdl : env.dlOk = true
      · have hR : fetch_download file_url department start_date end_date sub_award_type fs env =
            ⟨some (fetchFilePath department sub_award_type start_date end_date),
              fetchFilePath department sub_award_type start_date end_date :: fs, i + 1, true⟩ := by
          simp only [fetch_download]
          rw [if_neg hmem, hfind]
          simp [hdl]
        rw [hR] at hp ⊢
        have hpeq : p = fetchFilePath department sub_award_type start_date end_date :=
          (Option.some.injEq _ _ ▸ hp).symm
        subst hpeq
        exact ⟨rfl, hexists _ (List.mem_cons_self _ _) file_url2 env2⟩
      · have hR : fetch_download file_url department start_date end_date sub_award_type fs env =
            ⟨none,
              ((fetchFilePath department sub_award_type start_date end_date :: fs).erase
                (fetchFilePath department sub_award_type start_date end_date)), i + 1, true⟩ := by
          simp only [fetch_download]
          rw [if_neg hmem, hfind]
          simp [hdl]
        rw [hR] at hp
        cases hp

/-- C8: after any fetch_download call, a file exists at the target path iff the call
returned that path; whenever the call returns None - a readiness timeout, or a transport
failure mid-stream whose partial file is removed again - the filesystem is exactly as
before the call, so no partial file is left behind. -/
theorem fetch_download_atomic (file_url : Option (List Char))
    (department start_date end_date sub_award_type : List Char)
    (fs : List (List Char)) (env : FetchEnv) :
    (fetchFilePath department sub_award_type start_date end_date ∈
        (fetch_download file_url department start_date end_date sub_award_type fs env).fs ↔
      (fetch_download file_url department start_date end_date sub_award_type fs env).result =
        some (fetchFilePath department sub_award_type start_date end_date)) ∧
    ((fetch_download file_url department start_date end_date sub_award_type fs env).result =
        none →
      (fetch_download file_url department start_date end_date sub_award_type fs env).fs = fs) := by
  by_cases hmem : fetchFilePath department sub_award_type start_date end_date ∈ fs
  · have hR : fetch_download file_url department start_date end_date sub_award_type fs env =
        ⟨some (fetchFilePath department sub_award_type start_date end_date), fs, 0, false⟩ := by
      simp only [fetch_download]; rw [if_pos hmem]
    rw [hR]
    exact ⟨⟨fun _ => rfl, fun _ => hmem⟩, fun h => by cases h⟩
  · cases hfind : (List.range 40).find? (fun i => check_file_status file_url env i) with
    | none =>
      have hR : fetch_download file_url department start_date end_date sub_award_type fs env =
          ⟨none, fs, 40, false⟩ := by
        simp only [fetch_download]; rw [if_neg hmem, hfind]
      rw [hR]
      exact ⟨⟨fun h => absurd h hmem, fun h => by cases h⟩, fun _ => rfl⟩
    | some i =>
      by_cases hdl : env.dlOk = true
      · have hR : fetch_download file_url department start_date end_date sub_award_type fs env =
            ⟨some (fetchFilePath department sub_award_type start_date end_date),
              fetchFilePath department sub_award_type start_date end_date :: fs, i + 1, true⟩ := by
          simp only [fetch_download]
          rw [if_neg hmem, hfind]
          simp [hdl]
        rw [hR]
        exact ⟨⟨fun _ => rfl, fun _ => List.mem_cons_self _ _⟩, fun h => by cases h⟩
      · have hR : fetch_download file_url department start_date end_date sub_award_type fs env =
            ⟨none,
              ((fetchFilePath department sub_award_type start_date end_date :: fs).erase
                (fetchFilePath department sub_award_type start_date end_date)), i + 1, true⟩ := by
          simp only [fetch_download]
          rw [if_neg hmem, hfind]
          simp [hdl]
        rw [hR]
        rw [List.erase_cons_head]
        exact ⟨⟨fun h => absurd h hmem, fun h => by cases h⟩, fun _ => rfl⟩

/-- C7 amended: the recovery pass invokes fetch_download for exactly the jobs whose
expected filename is absent from the successful list - whether or not the job obtained a
file url from its initial request - and a retried job whose file_url is None and whose
file is not on disk performs the full 40 HEAD polls, necessarily fails, and so is
reported missing. -/
theorem check_and_download_missing_amended :
    (∀ (jobs : List Job) (successful_filenames : List (List Char)) (fs : List (List Char)),
      (check_and_download_missing jobs successful_filenames fs).fetchCalls.map Prod.fst =
        (jobs.filter fun j => decide (expectedFilename j ∉ successful_filenames)).map
          expectedFilename) ∧
    (∀ (department start_date end_date sub_award_type : List Char)
        (fs : List (List Char)) (env : FetchEnv),
      fetchFilePath department sub_award_type start_date end_date ∉ fs →
      fetch_download none department start_date end_date sub_award_type fs env =
        ⟨none, fs, 40, false⟩) := by
  constructor
  · intro jobs
    induction jobs with
    | nil => intro names fs; simp [check_and_download_missing]
    | cons j js ih =>
      intro names fs
      by_cases h : expectedFilename j ∈ names
      · simp only [check_and_download_missing]
        rw [if_pos h, List.filter_cons]
        have hdec : decide (expectedFilename j ∉ names) = false := by simp [h]
        rw [hdec, if_neg Bool.false_ne_true]
        exact ih names fs
      · simp only [check_and_download_missing]
        rw [if_neg h, List.filter_cons]
        have hdec : decide (expectedFilename j ∉ names) = true := by simp [h]
        rw [hdec, if_pos rfl]
        simp only [List.map_cons]
        exact congrArg (List.cons (expectedFilename j)) (ih names _)
  · intro department start_date end_date sub_award_type fs env hmem
    simp only [fetch_download]
    rw [if_neg hmem, find?_const_false_none]

theorem download_main_cases (jobs : List Job) (fs : List (List Char)) :
    download_main jobs fs = 0 ∨ download_main jobs fs = 1 := by
  simp only [download_main]
  split_ifs <;> simp

/-- C5 amended: the exit code of the download stage is 0 iff the initial fetch pass
downloaded at least one file and, in case not every date range got its file in that
pass, the recovery pass left nothing missing.  In particular a run with partial success
and an unrecovered failure exits 1, and a run whose files all arrive only during the
recovery pass also exits 1. -/
theorem download_main_exit_iff (jobs : List Job) (fs : List (List Char)) :
    download_main jobs fs = 0 ↔
      (mainFetchPass jobs fs).1 ≠ [] ∧
      ((mainFetchPass jobs fs).1.length < jobs.length →
        (check_and_download_missing jobs ((mainFetchPass jobs fs).1.map pyBasename)
          (mainFetchPass jobs fs).2).missing = []) := by
  simp only [download_main]
  split_ifs with h1 h2 h3 h4
  · exact ⟨fun h => absurd h (by decide), fun hh => absurd (hh.2 h1) h2⟩
  · exact ⟨fun _ => ⟨h3, fun _ => not_not.mp h2⟩, fun _ => rfl⟩
  · exact ⟨fun h => absurd h (by decide), fun hh => absurd hh.1 h3⟩
  · exact ⟨fun _ => ⟨h4, fun hl => absurd hl h1⟩, fun _ => rfl⟩
  · exact ⟨fun h => absurd h (by decide), fun hh => absurd hh.1 h4⟩

/-- C10: with skip_download false the orchestrator binds zip_files to the integer exit
code of the download stage and tests it for truthiness, so the transform stage is
skipped exactly when the download stage returned 0 (success) and invoked exactly when it
returned 1 (failure). -/
theorem transform_invoked_iff_download_failed (jobs : List Job) (fs : List (List Char)) :
    (process_department_transform_invoked (download_main jobs fs) = false ↔
      download_main jobs fs = 0) ∧
    (process_department_transform_invoked (download_main jobs fs) = true ↔
      download_main jobs fs = 1) := by
  rcases download_main_cases jobs fs with h | h <;>
    rw [h] <;> simp [process_department_transform_invoked]

/-- C9 amended: every output permitted by the sort contract for
filter_by_amount_and_keywords, and for combine_filtered_files, is sorted descending by
amount and consists of input rows; the relative order of equal-amount rows is not
determined, because sort_values is called with the default unstable kind. -/
theorem filter_output_sorted_amended :
    (∀ rows min_amount pat out, FilterRun rows min_amount pat out →
      IsSortedAmountDesc out ∧ ∀ r, r ∈ out → r ∈ rows) ∧
    (∀ tables out, CombineFilteredRun tables out →
      IsSortedAmountDesc out ∧ ∀ r, r ∈ out → r ∈ tables.flatten) := by
  constructor
  · intro rows min_amount pat out h
    simp only [FilterRun] at h
    split at h
    · obtain ⟨s1, ⟨hp1, _⟩, hp2, hs2⟩ := h
      refine ⟨hs2, fun r hr => ?_⟩
      have hr1 : r ∈ dropDupById s1 := hp2.mem_iff.mp hr
      have hr2 : r ∈ s1 := dropDupByIdAux_subset hr1
      exact List.mem_of_mem_filter (List.mem_of_mem_filter (hp1.mem_iff.mp hr2))
    · exact ⟨h.2, fun r hr =>
        List.mem_of_mem_filter (List.mem_of_mem_filter (h.1.mem_iff.mp hr))⟩
  · intro tables out h
    simp only [CombineFilteredRun] at h
    split at h
    · obtain ⟨s1, ⟨hp1, _⟩, hp2, hs2⟩ := h
      refine ⟨hs2, fun r hr => ?_⟩
      have hr1 : r ∈ dropDupById s1 := hp2.mem_iff.mp hr
      have hr2 : r ∈ s1 := dropDupByIdAux_subset hr1
      exact hp1.mem_iff.mp hr2
    · exact ⟨h.2, fun r hr => h.1.mem_iff.mp hr⟩

/-- C1 counterexample: two rows share id A and tie on the maximum amount 10; the groupby
output row mixes columns of both group members (description of the first, action code of
the last), so it equals neither input row - in particular not the first-seen maximal
row, contradicting first-seen-wins. -/
theorem combine_first_seen_counterexample :
    combine_csv_filesProc
      [⟨"A".toList, 10, "da".toList, "x".toList, "r1".toList, "ag".toList, ⟨2025, 1, 1⟩⟩,
        ⟨"A".toList, 10, "db".toList, "y".toList, "r2".toList, "ag".toList, ⟨2025, 1, 1⟩⟩] =
      [⟨"A".toList, 10, "da".toList, "y".toList, "r1".toList, "ag".toList, ⟨2025, 1, 1⟩⟩] ∧
    (⟨"A".toList, 10, "da".toList, "y".toList, "r1".toList, "ag".toList,
        ⟨2025, 1, 1⟩⟩ : ProcRow) ≠
      ⟨"A".toList, 10, "da".toList, "x".toList, "r1".toList, "ag".toList, ⟨2025, 1, 1⟩⟩ ∧
    (⟨"A".toList, 10, "da".toList, "y".toList, "r1".toList, "ag".toList,
        ⟨2025, 1, 1⟩⟩ : ProcRow) ≠
      ⟨"A".toList, 10, "db".toList, "y".toList, "r2".toList, "ag".toList, ⟨2025, 1, 1⟩⟩ := by
  refine ⟨by decide, by decide, by decide⟩

/-- Witness instantiating the amended dedup theorem on a one-row table. -/
theorem dedup_by_max_amended_witness :
    ∃ r, r ∈ dropDupById [⟨"A".toList, some 5, "d".toList⟩] ∧
      r.award_id = "A".toList ∧ r ∈ [⟨"A".toList, some 5, "d".toList⟩] ∧
      ∀ y, y ∈ [(⟨"A".toList, some 5, "d".toList⟩ : FilterRow)] → y.award_id = "A".toList →
        descGe r.amount y.amount = true :=
  (dedup_by_max_amended.2 [⟨"A".toList, some 5, "d".toList⟩]
    [⟨"A".toList, some 5, "d".toList⟩] ⟨by decide, by decide⟩).2 ("A".toList) (by decide)

/-- Witness instantiating the active-subset theorem on a concrete live row. -/
theorem activeSubset_mem_iff_witness :
    (⟨"A".toList, "d".toList, some ⟨2025, 6, 1⟩⟩ : TransRow) ∈
      activeSubset [⟨"A".toList, "d".toList, some ⟨2025, 6, 1⟩⟩] ⟨2025, 1, 1⟩ :=
  ((activeSubset_mem_iff [⟨"A".toList, "d".toList, some ⟨2025, 6, 1⟩⟩] ⟨2025, 1, 1⟩
      ⟨"A".toList, "d".toList, some ⟨2025, 6, 1⟩⟩).1).mpr
    ⟨by decide, ⟨2025, 6, 1⟩, rfl, by decide⟩

/-- C5 counterexample: of two date-range jobs, the first downloads successfully and the
second has no file url and cannot be recovered; one file was downloaded, yet the exit
code is 1, contradicting exit 0 on partial success. -/
theorem download_main_partial_success_counterexample :
    download_main
      [⟨"d".toList, "s1".toList, "e1".toList, "p".toList, some ("u".toList),
          ⟨fun _ => true, true⟩, ⟨fun _ => true, true⟩⟩,
        ⟨"d".toList, "s2".toList, "e2".toList, "p".toList, none,
          ⟨fun _ => false, false⟩, ⟨fun _ => false, false⟩⟩] [] = 1 ∧
    (mainFetchPass
      [⟨"d".toList, "s1".toList, "e1".toList, "p".toList, some ("u".toList),
          ⟨fun _ => true, true⟩, ⟨fun _ => true, true⟩⟩,
        ⟨"d".toList, "s2".toList, "e2".toList, "p".toList, none,
          ⟨fun _ => false, false⟩, ⟨fun _ => false, false⟩⟩] []).1.length = 1 := by
  refine ⟨by decide, by decide⟩

/-- Witness instantiating the exit-code theorem on a fully successful one-job run. -/
theorem download_main_exit_iff_witness :
    download_main [⟨"d".toList, "s".toList, "e".toList, "p".toList, some ("u".toList),
        ⟨fun _ => true, true⟩, ⟨fun _ => true, true⟩⟩] [] = 0 :=
  (download_main_exit_iff [⟨"d".toList, "s".toList, "e".toList, "p".toList, some ("u".toList),
      ⟨fun _ => true, true⟩, ⟨fun _ => true, true⟩⟩] []).mpr
    ⟨by decide, fun hl => absurd hl (by decide)⟩

/-- Witness instantiating the idempotent-fetch theorem: after a successful download, a
second call returns the same path with no polling and no download. -/
theorem fetch_download_idempotent_witness :
    fetchFilePath ("d".toList) ("p".toList) ("s".toList) ("e".toList) =
        fetchFilePath ("d".toList) ("p".toList) ("s".toList) ("e".toList) ∧
    fetch_download (some ("u".toList)) ("d".toList) ("s".toList) ("e".toList) ("p".toList)
        (fetch_download (some ("u".toList)) ("d".toList) ("s".toList) ("e".toList) ("p".toList) []
          ⟨fun _ => true, true⟩).fs ⟨fun _ => false, false⟩ =
      ⟨some (fetchFilePath ("d".toList) ("p".toList) ("s".toList) ("e".toList)),
        (fetch_download (some ("u".toList)) ("d".toList) ("s".toList) ("e".toList) ("p".toList) []
          ⟨fun _ => true, true⟩).fs, 0, false⟩ :=
  (fetch_download_idempotent (some ("u".toList)) (some ("u".toList)) ("d".toList) ("s".toList)
      "e".toList ("p".toList) [] ⟨fun _ => true, true⟩ ⟨fun _ => false, false⟩).2
    (fetchFilePath ("d".toList) ("p".toList) ("s".toList) ("e".toList)) (by decide)

/-- C7 counterexample: a job whose request failed (file_url None) and whose file is
missing is nevertheless passed to fetch_download by the recovery pass, performing the
full 40 HEAD polls before being reported missing - the claim says it is never retried. -/
theorem recovery_retries_urlless_counterexample :
    (check_and_download_missing
        [⟨"d".toList, "s".toList, "e".toList, "p".toList, none,
            ⟨fun _ => false, false⟩, ⟨fun _ => true, true⟩⟩] [] []).fetchCalls =
      [("d_p_s_to_e.zip".toList, 40)] ∧
    (check_and_download_missing
        [⟨"d".toList, "s".toList, "e".toList, "p".toList, none,
            ⟨fun _ => false, false⟩, ⟨fun _ => true, true⟩⟩] [] []).missing =
      ["d_p_s_to_e.zip".toList] := by
  refine ⟨by decide, by decide⟩

/-- Witness instantiating the amended recovery theorem: a url-less fetch against an
empty filesystem polls 40 times and fails. -/
theorem check_and_download_missing_amended_witness :
    fetch_download none ("d".toList) ("s".toList) ("e".toList) ("p".toList) []
        ⟨fun _ => true, true⟩ = ⟨none, [], 40, false⟩ :=
  check_and_download_missing_amended.2 ("d".toList) ("s".toList) ("e".toList) ("p".toList) []
    ⟨fun _ => true, true⟩ (by decide)

/-- Witness instantiating the atomicity theorem on a readiness timeout: the filesystem
is unchanged. -/
theorem fetch_download_atomic_witness :
    (fetch_download (some ("u".toList)) ("d".toList) ("s".toList) ("e".toList) ("p".toList) []
        ⟨fun _ => false, true⟩).fs = [] :=
  (fetch_download_atomic (some ("u".toList)) ("d".toList) ("s".toList) ("e".toList) ("p".toList) []
      ⟨fun _ => false, true⟩).2 (by decide)

/-- C9 counterexample: two keyword-matching rows with equal amounts and distinct ids;
the reversed list is a permitted output of the filter (it satisfies the descending sort
contract), yet the input order of the two equal-amount rows is not preserved in it. -/
theorem filter_sort_stability_counterexample :
    FilterRun
      [⟨"A".toList, some 10, "diversity".toList⟩, ⟨"B".toList, some 10, "diversity".toList⟩]
      0 setup_advanced_keywordsMatch
      [⟨"B".toList, some 10, "diversity".toList⟩, ⟨"A".toList, some 10, "diversity".toList⟩] ∧
    Precedes
      [⟨"A".toList, some 10, "diversity".toList⟩, ⟨"B".toList, some 10, "diversity".toList⟩]
      ⟨"A".toList, some 10, "diversity".toList⟩ ⟨"B".toList, some 10, "diversity".toList⟩ ∧
    ¬ Precedes
      [⟨"B".toList, some 10, "diversity".toList⟩, ⟨"A".toList, some 10, "diversity".toList⟩]
      ⟨"A".toList, some 10, "diversity".toList⟩ ⟨"B".toList, some 10, "diversity".toList⟩ := by
  refine ⟨?_, by decide, by decide⟩
  simp only [FilterRun]
  rw [if_neg (by decide)]
  exact ⟨by decide, by decide⟩

/-- Witness instantiating the amended sortedness theorem on a one-row run. -/
theorem filter_output_sorted_amended_witness :
    IsSortedAmountDesc [(⟨"A".toList, some 10, "diversity".toList⟩ : FilterRow)] ∧
    ∀ r, r ∈ [(⟨"A".toList, some 10, "diversity".toList⟩ : FilterRow)] →
      r ∈ [(⟨"A".toList, some 10, "diversity".toList⟩ : FilterRow)] :=
  filter_output_sorted_amended.1 [⟨"A".toList, some 10, "diversity".toList⟩] 0
    setup_advanced_keywordsMatch [⟨"A".toList, some 10, "diversity".toList⟩]
    (by simp only [FilterRun]; rw [if_neg (by decide)]; exact ⟨by decide, by decide⟩)
